import Mathlib

/-!
Verification development for the gym-tracker workout store and
derived-statistics engine (`src/components/GymTracker.js`).

Modelling conventions (shallow embedding):
* A `Workout` record mirrors the persisted schema
  `{ id, date, bodyPart, timestamp, sets }`.  JavaScript numbers used as
  ids are `Date.now() + Math.random()`, i.e. an integer millisecond count
  plus a fractional random draw, modelled as a rational.
* The stored `date`/`timestamp` strings are modelled by their parse
  results: `Option Int` milliseconds since the epoch, `none` standing for
  a string on which `new Date(s)` yields `NaN` (an invalid date).  All
  calendar arithmetic is UTC-normalized: a calendar day is the floor
  division of the millisecond instant by 86400000, and JavaScript's
  `getDay()` (0 = Sunday) on an epoch day `d` is `(d + 4) mod 7`
  (day 0, 1970-01-01, was a Thursday).
* An absent `sets` field is `none`; the source's `workout.sets || 1`
  default maps both an absent field and the (falsy) value 0 to 1.
-/

structure BodyPart where
  icon : String
  name : String
deriving DecidableEq

/-- The fixed 9-entry muscle-group catalog (`bodyParts`, GymTracker.js
lines 165-175; the display emoji is irrelevant to the data model). -/
def bodyParts : List BodyPart :=
  [ ⟨"biceps", "Biceps"⟩, ⟨"triceps", "Triceps"⟩, ⟨"legs", "Legs"⟩,
    ⟨"cardio", "Cardio"⟩, ⟨"back", "Back"⟩, ⟨"chest", "Chest"⟩,
    ⟨"glutes", "Glutes"⟩, ⟨"shoulders", "Shoulders"⟩, ⟨"abs", "Abs"⟩ ]

structure Workout where
  id : ℚ
  date : Option Int
  bodyPart : BodyPart
  timestamp : Int
  sets : Option Int
deriving DecidableEq

/-- JavaScript's `workout.sets || 1`: an absent field and the falsy
value 0 both default to 1 (GymTracker.js lines 251, 381). -/
def orOne : Option Int → Int
  | none => 1
  | some v => if v = 0 then 1 else v

/-- The gaming-style level step function inlined in
`calculateMuscleStats` (GymTracker.js lines 400-420): the `sets >= 50`,
`>= 30`, `>= 20`, `>= 10` cascade. -/
def muscleGroupLevel (sets : Int) : Int :=
  if sets ≥ 50 then 5
  else if sets ≥ 30 then 4
  else if sets ≥ 20 then 3
  else if sets ≥ 10 then 2
  else 1

/-- The rank label cascade of `calculateMuscleStats`
(GymTracker.js lines 401-420). -/
def muscleGroupRank (sets : Int) : String :=
  if sets ≥ 50 then "Master"
  else if sets ≥ 30 then "Expert"
  else if sets ≥ 20 then "Advanced"
  else if sets ≥ 10 then "Intermediate"
  else "Beginner"

/-- The display color cascade of `calculateMuscleStats`
(GymTracker.js lines 402-420). -/
def muscleGroupColor (sets : Int) : String :=
  if sets ≥ 50 then "#7c3aed"
  else if sets ≥ 30 then "#dc2626"
  else if sets ≥ 20 then "#ea580c"
  else if sets ≥ 10 then "#16a34a"
  else "#64748b"

/-- C1: the level function is a deterministic step function of the total
sets: for non-negative totals, level 1 below 10, level 2 on 10-19,
level 3 on 20-29, level 4 on 30-49, level 5 from 50 up; it is
non-decreasing, and `muscleGroupLevel 9 = 1`, `muscleGroupLevel 10 = 2`,
`muscleGroupLevel 49 = 4`, `muscleGroupLevel 50 = 5`. -/
theorem muscleGroupLevel_step_spec :
    (∀ n : Int, 0 ≤ n → n < 10 → muscleGroupLevel n = 1) ∧
    (∀ n : Int, 10 ≤ n → n ≤ 19 → muscleGroupLevel n = 2) ∧
    (∀ n : Int, 20 ≤ n → n ≤ 29 → muscleGroupLevel n = 3) ∧
    (∀ n : Int, 30 ≤ n → n ≤ 49 → muscleGroupLevel n = 4) ∧
    (∀ n : Int, 50 ≤ n → muscleGroupLevel n = 5) ∧
    (∀ a b : Int, 0 ≤ a → a ≤ b → muscleGroupLevel a ≤ muscleGroupLevel b) ∧
    muscleGroupLevel 9 = 1 ∧ muscleGroupLevel 10 = 2 ∧
    muscleGroupLevel 49 = 4 ∧ muscleGroupLevel 50 = 5 := by
  refine ⟨?_, ?_, ?_, ?_, ?_, ?_, by decide, by decide, by decide, by decide⟩ <;>
    intros <;> simp only [muscleGroupLevel] <;> split_ifs <;> omega

/-- C1 witness: the step theorem instantiated at concrete totals. -/
theorem muscleGroupLevel_step_spec_witness :
    muscleGroupLevel 7 = 1 ∧ muscleGroupLevel 15 = 2 ∧
    muscleGroupLevel 25 = 3 ∧ muscleGroupLevel 40 = 4 ∧
    muscleGroupLevel 60 = 5 ∧ muscleGroupLevel 12 ≤ muscleGroupLevel 34 :=
  ⟨muscleGroupLevel_step_spec.1 7 (by decide) (by decide),
   muscleGroupLevel_step_spec.2.1 15 (by decide) (by decide),
   muscleGroupLevel_step_spec.2.2.1 25 (by decide) (by decide),
   muscleGroupLevel_step_spec.2.2.2.1 40 (by decide) (by decide),
   muscleGroupLevel_step_spec.2.2.2.2.1 60 (by decide),
   muscleGroupLevel_step_spec.2.2.2.2.2.1 12 34 (by decide) (by decide)⟩

/-- One day in milliseconds. -/
def msPerDay : Int := 86400000

/-- The calendar day (epoch day number) an instant falls on. -/
def dayOfMs (t : Int) : Int := t / msPerDay

/-- The `addWorkout` operation (GymTracker.js lines 236-246): appends a
record with `id = Date.now() + Math.random()`, `date` the start of the
current day serialized and reparsed, `timestamp` the creation instant,
and `sets = 1`.  The wall-clock millisecond `t` and the random draw `r`
of `Math.random()` are explicit inputs. -/
def addWorkout (t : Int) (r : ℚ) (part : BodyPart) (ws : List Workout) :
    List Workout :=
  ws ++ [{ id := (t : ℚ) + r
           date := some (dayOfMs t * msPerDay)
           bodyPart := part
           timestamp := t
           sets := some 1 }]

/-- One record's update in `incrementSets` (GymTracker.js lines 248-254):
`workout.id === id ? { ...workout, sets: (workout.sets || 1) + 1 } :
workout`. -/
def incStep (i : ℚ) (w : Workout) : Workout :=
  if w.id = i then { w with sets := some (orOne w.sets + 1) } else w

/-- The `incrementSets` operation: a map of `incStep` over the
collection. -/
def incrementSets (i : ℚ) (ws : List Workout) : List Workout :=
  ws.map (incStep i)

/-- The guard `workout.sets > 1` of `decrementSets`; on an absent field
JavaScript's `undefined > 1` is false. -/
def setsGtOne : Option Int → Bool
  | none => false
  | some v => decide (1 < v)

/-- `workout.sets - 1` as used under the `setsGtOne` guard. -/
def setsMinusOne : Option Int → Option Int
  | none => none
  | some v => some (v - 1)

/-- One record's update in `decrementSets` (GymTracker.js lines 256-262):
`workout.id === id && workout.sets > 1 ? { ...workout,
sets: workout.sets - 1 } : workout`. -/
def decStep (i : ℚ) (w : Workout) : Workout :=
  if w.id = i ∧ setsGtOne w.sets then { w with sets := setsMinusOne w.sets }
  else w

/-- The `decrementSets` operation: a map of `decStep` over the
collection. -/
def decrementSets (i : ℚ) (ws : List Workout) : List Workout :=
  ws.map (decStep i)

/-- The state update of `removeWorkout` (GymTracker.js lines 264-278):
a filter keeping every record whose id differs. -/
def removeWorkout (i : ℚ) (ws : List Workout) : List Workout :=
  ws.filter (fun w => decide (w.id ≠ i))

/-- First-match lookup in a counts object, 0 on a missing key
(JavaScript property access on the initialized counts object). -/
def getCount (n : String) : List (String × Int) → Int
  | [] => 0
  | e :: rest => if e.1 = n then e.2 else getCount n rest

/-- The `counts[name] += v` update on the counts object: the entry with
that key (if present) is increased by `v`. -/
def bump (g : List (String × Int)) (n : String) (v : Int) :
    List (String × Int) :=
  g.map fun e => if e.1 = n then (e.1, e.2 + v) else e

/-- The initial counts object of `countSetsByBodyPart`
(GymTracker.js lines 375-378): every catalog name mapped to 0. -/
def initCounts : List (String × Int) := bodyParts.map fun p => (p.name, 0)

/-- The `countSetsByBodyPart` aggregation (GymTracker.js lines 374-385):
start from the zero-initialized catalog counts and fold
`counts[workout.bodyPart.name] += (workout.sets || 1)` over the list. -/
def countSetsByBodyPart (ws : List Workout) : List (String × Int) :=
  ws.foldl (fun g w => bump g w.bodyPart.name (orOne w.sets)) initCounts

/-- The per-group sum the spec describes: total of `sets || 1` over the
records matching a group name. -/
def setsTotal (ws : List Workout) (n : String) : Int :=
  ((ws.filter fun w => decide (w.bodyPart.name = n)).map
    fun w => orOne w.sets).sum

lemma keys_bump (g : List (String × Int)) (m : String) (v : Int) :
    (bump g m v).map Prod.fst = g.map Prod.fst := by
  simp only [bump, List.map_map]
  refine List.map_congr_left fun e _ => ?_
  by_cases h : e.1 = m <;> simp [h]

lemma getCount_bump_ne {n m : String} (h : n ≠ m)
    (g : List (String × Int)) (v : Int) :
    getCount n (bump g m v) = getCount n g := by
  induction g with
  | nil => rfl
  | cons e rest ih =>
    simp only [bump, List.map_cons]
    by_cases he : e.1 = m
    · have hne : e.1 ≠ n := by rw [he]; exact Ne.symm h
      simp only [getCount, if_pos he, if_neg hne]
      exact ih
    · simp only [getCount, if_neg he]
      by_cases hn : e.1 = n
      · simp only [if_pos hn]
      · simp only [if_neg hn]
        exact ih

lemma getCount_bump_self {n : String} {g : List (String × Int)}
    (h : n ∈ g.map Prod.fst) (v : Int) :
    getCount n (bump g n v) = getCount n g + v := by
  induction g with
  | nil => simp at h
  | cons e rest ih =>
    simp only [bump, List.map_cons]
    by_cases he : e.1 = n
    · simp only [getCount, if_pos he]
    · simp only [List.map_cons, List.mem_cons, he] at h
      have h' : n ∈ rest.map Prod.fst := by
        rcases h with h | h
        · exact absurd h.symm he
        · exact h
      simp only [getCount, if_neg he]
      exact ih h'

lemma setsTotal_cons (w : Workout) (rest : List Workout) (n : String) :
    setsTotal (w :: rest) n =
      (if w.bodyPart.name = n then orOne w.sets else 0) + setsTotal rest n := by
  simp only [setsTotal, List.filter_cons]
  by_cases hw : w.bodyPart.name = n
  · simp [hw]
  · simp [hw]

lemma getCount_countFold (ws : List Workout) :
    ∀ (g : List (String × Int)) (n : String), n ∈ g.map Prod.fst →
      getCount n
        (ws.foldl (fun g w => bump g w.bodyPart.name (orOne w.sets)) g) =
      getCount n g + setsTotal ws n := by
  induction ws with
  | nil => intro g n _; simp [setsTotal]
  | cons w rest ih =>
    intro g n hn
    rw [List.foldl_cons]
    have hn' : n ∈ (bump g w.bodyPart.name (orOne w.sets)).map Prod.fst := by
      rw [keys_bump]; exact hn
    rw [ih _ n hn', setsTotal_cons]
    by_cases hw : w.bodyPart.name = n
    · rw [hw, getCount_bump_self hn, if_pos rfl]
      ring
    · rw [getCount_bump_ne (fun hc => hw hc.symm), if_neg hw]
      ring

lemma getCount_zero {g : List (String × Int)}
    (h : ∀ e ∈ g, e.2 = 0) (n : String) : getCount n g = 0 := by
  induction g with
  | nil => rfl
  | cons e rest ih =>
    rw [getCount]
    by_cases he : e.1 = n
    · simp only [he, if_pos rfl]
      exact h e (List.mem_cons_self e rest)
    · simp only [he, if_false]
      exact ih fun x hx => h x (List.mem_cons_of_mem e hx)

lemma keys_countSets (ws : List Workout) :
    (countSetsByBodyPart ws).map Prod.fst = bodyParts.map BodyPart.name := by
  rw [countSetsByBodyPart]
  have : ∀ (l : List Workout) (g : List (String × Int)),
      (l.foldl (fun g w => bump g w.bodyPart.name (orOne w.sets)) g).map
        Prod.fst = g.map Prod.fst := by
    intro l
    induction l with
    | nil => intro g; rfl
    | cons w rest ih =>
      intro g
      rw [List.foldl_cons, ih, keys_bump]
  rw [this]
  simp [initCounts]

lemma getCount_countSets {p : BodyPart} (hp : p ∈ bodyParts)
    (ws : List Workout) :
    getCount p.name (countSetsByBodyPart ws) = setsTotal ws p.name := by
  have hk : p.name ∈ initCounts.map Prod.fst := by
    simp only [initCounts, List.map_map]
    exact List.mem_map.2 ⟨p, hp, rfl⟩
  rw [countSetsByBodyPart, getCount_countFold ws initCounts p.name hk,
    getCount_zero (g := initCounts) (by simp [initCounts]) p.name]
  ring

/-- The biceps catalog entry, used by the end-to-end scenario. -/
def bicepsPart : BodyPart := ⟨"biceps", "Biceps"⟩

/-- The end-to-end scenario collection of C2: three `addWorkout` calls
for Biceps (at successive milliseconds, zero random draw) followed by
two `incrementSets` calls on the second record's id. -/
def scenarioC2 : List Workout :=
  incrementSets 1 (incrementSets 1
    (addWorkout 2 0 bicepsPart
      (addWorkout 1 0 bicepsPart
        (addWorkout 0 0 bicepsPart []))))

lemma scenarioC2_eq :
    scenarioC2 = [⟨0, some 0, bicepsPart, 0, some 1⟩,
      ⟨1, some 0, bicepsPart, 1, some 3⟩,
      ⟨2, some 0, bicepsPart, 2, some 1⟩] := by
  norm_num [scenarioC2, addWorkout, incrementSets, incStep, orOne,
    dayOfMs, msPerDay]

/-- C2: on a collection whose bodyPart names come from the 9-entry
catalog, each group's reported total is the sum of `sets` over matching
records with an absent `sets` counted as 1; every catalog key is present
in the counts (a group with no matching records reports 0); and the
3-add/2-increment Biceps scenario totals Biceps 5 with every other
group 0. -/
theorem countSetsByBodyPart_spec :
    (∀ ws : List Workout,
      (countSetsByBodyPart ws).map Prod.fst = bodyParts.map BodyPart.name) ∧
    (∀ ws : List Workout,
      (∀ w ∈ ws, w.bodyPart.name ∈ bodyParts.map BodyPart.name) →
      ∀ p ∈ bodyParts,
        getCount p.name (countSetsByBodyPart ws) = setsTotal ws p.name) ∧
    (∀ ws : List Workout, ∀ p ∈ bodyParts,
      (∀ w ∈ ws, w.bodyPart.name ≠ p.name) →
      getCount p.name (countSetsByBodyPart ws) = 0) ∧
    (getCount "Biceps" (countSetsByBodyPart scenarioC2) = 5 ∧
     ∀ p ∈ bodyParts, p.name ≠ "Biceps" →
       getCount p.name (countSetsByBodyPart scenarioC2) = 0) := by
  refine ⟨keys_countSets, ?_, ?_, by rw [scenarioC2_eq]; decide,
    by rw [scenarioC2_eq]; decide⟩
  · intro ws _ p hp
    exact getCount_countSets hp ws
  · intro ws p hp h
    rw [getCount_countSets hp ws, setsTotal]
    have hnil : ws.filter (fun w => decide (w.bodyPart.name = p.name)) = [] := by
      rw [List.filter_eq_nil_iff]
      intro w hw
      simpa using h w hw
    rw [hnil]
    rfl

/-- C2 witness: the per-group totals instantiated on a concrete
two-record Legs collection (one record with `sets = 4`, one with the
`sets` field absent). -/
theorem countSetsByBodyPart_spec_witness :
    getCount "Legs" (countSetsByBodyPart
        [⟨0, some 0, ⟨"legs", "Legs"⟩, 0, some 4⟩,
         ⟨1, some 0, ⟨"legs", "Legs"⟩, 5, none⟩]) =
      setsTotal
        [⟨0, some 0, ⟨"legs", "Legs"⟩, 0, some 4⟩,
         ⟨1, some 0, ⟨"legs", "Legs"⟩, 5, none⟩] "Legs" ∧
    getCount "Abs" (countSetsByBodyPart
        [⟨0, some 0, ⟨"legs", "Legs"⟩, 0, some 4⟩,
         ⟨1, some 0, ⟨"legs", "Legs"⟩, 5, none⟩]) = 0 :=
  ⟨countSetsByBodyPart_spec.2.1 _ (by decide) ⟨"legs", "Legs"⟩ (by decide),
   countSetsByBodyPart_spec.2.2.1 _ ⟨"abs", "Abs"⟩ (by decide) (by decide)⟩

/-- The sets-floor predicate: a present `sets` field is at least 1. -/
def setsOk (w : Workout) : Bool :=
  match w.sets with
  | some v => decide (1 ≤ v)
  | none => true

/-- A sequence of `decrementSets` calls applied in order. -/
def applyDecs (ws : List Workout) (ids : List ℚ) : List Workout :=
  ids.foldl (fun ws i => decrementSets i ws) ws

lemma decStep_setsOk {w : Workout} (h : setsOk w = true) (i : ℚ) :
    setsOk (decStep i w) = true := by
  rw [decStep]
  split
  · rename_i hc
    cases hs : w.sets with
    | none => rw [hs] at hc; simp [setsGtOne] at hc
    | some v =>
      rw [hs] at hc
      have hv : 1 < v := by simpa [setsGtOne] using hc.2
      simp only [setsOk, hs, setsMinusOne]
      simp only [decide_eq_true_eq]
      omega
  · exact h

/-- C3: starting from a collection in which every present `sets` field is
at least 1, any sequence of `decrementSets` calls keeps every record's
`sets` at least 1; and on a record whose `sets` equals 1 the decrement
step is a no-op. -/
theorem decrementSets_floor_spec :
    (∀ (ws : List Workout) (ids : List ℚ),
      (∀ w ∈ ws, setsOk w = true) →
      ∀ w ∈ applyDecs ws ids, setsOk w = true) ∧
    (∀ (i : ℚ) (w : Workout), w.sets = some 1 → decStep i w = w) := by
  constructor
  · intro ws ids
    induction ids generalizing ws with
    | nil => intro h w hw; exact h w hw
    | cons i rest ih =>
      intro h w hw
      rw [applyDecs, List.foldl_cons] at hw
      refine ih (decrementSets i ws) ?_ w hw
      intro x hx
      rw [decrementSets] at hx
      obtain ⟨y, hy, rfl⟩ := List.mem_map.1 hx
      exact decStep_setsOk (h y hy) i
  · intro i w h
    rw [decStep, if_neg]
    intro hc
    rw [h] at hc
    simp [setsGtOne] at hc

/-- C3 witness: the floor invariant applied to a concrete one-record
collection decremented twice, plus the no-op at the floor on that
record. -/
theorem decrementSets_floor_spec_witness :
    (∀ w ∈ applyDecs [⟨0, some 0, bicepsPart, 0, some 1⟩] [0, 0],
      setsOk w = true) ∧
    decStep 0 ⟨0, some 0, bicepsPart, 0, some 1⟩ =
      ⟨0, some 0, bicepsPart, 0, some 1⟩ :=
  ⟨decrementSets_floor_spec.1 _ _ (by decide),
   decrementSets_floor_spec.2 0 _ rfl⟩

/-- JavaScript's `getDay()` on an epoch day number: 0 = Sunday,
6 = Saturday (day 0, 1970-01-01, was a Thursday, `getDay() = 4`). -/
def jsDay (d : Int) : Int := (d + 4) % 7

/-- The `getStartOfWeek` computation (GymTracker.js lines 295-302) on
epoch day numbers: `setDate(getDate() - day + (day === 0 ? -6 : 1))`
shifts the day by `-getDay() + (getDay() = 0 ? -6 : 1)` and the result
is set to midnight. -/
def getStartOfWeek (d : Int) : Int :=
  d - jsDay d + (if jsDay d = 0 then -6 else 1)

/-- The epoch day of `today` (the reference instant at midnight,
GymTracker.js lines 230-234). -/
def todayDay (now : Int) : Int := dayOfMs now

/-- Start of the displayed week in milliseconds (`startOfWeek`,
GymTracker.js line 304). -/
def weekStartMs (now : Int) : Int := getStartOfWeek (todayDay now) * msPerDay

/-- End of the displayed week in milliseconds (`endOfWeek`: start plus
6 days at 23:59:59.999, GymTracker.js lines 305-307). -/
def weekEndMs (now : Int) : Int :=
  (getStartOfWeek (todayDay now) + 6) * msPerDay + 86399999

/-- The `todayWorkouts` filter (GymTracker.js lines 281-292): keep
records whose date parses (`!isNaN`) and, normalized to midnight,
equals `today`; a record whose date does not parse is excluded. -/
def todayWorkouts (now : Int) (ws : List Workout) : List Workout :=
  ws.filter fun w =>
    match w.date with
    | none => false
    | some t => decide (dayOfMs t * msPerDay = todayDay now * msPerDay)

/-- The `weekWorkouts` filter (GymTracker.js lines 309-319): keep
records whose date parses and lies between `startOfWeek` and
`endOfWeek` inclusive. -/
def weekWorkouts (now : Int) (ws : List Workout) : List Workout :=
  ws.filter fun w =>
    match w.date with
    | none => false
    | some t => decide (weekStartMs now ≤ t ∧ t ≤ weekEndMs now)

/-- Conversion from an epoch day number to the civil `(year, month,
day)` with months 1-12, by floor-division era arithmetic; this models
JavaScript's `getFullYear()`/`getMonth()` (the latter is the returned
month minus 1). -/
def civilFromDays (z0 : Int) : Int × Int × Int :=
  let z := z0 + 719468
  let era := z / 146097
  let doe := z - era * 146097
  let yoe := (doe - doe / 1460 + doe / 36524 - doe / 146096) / 365
  let y := yoe + era * 400
  let doy := doe - (365 * yoe + yoe / 4 - yoe / 100)
  let mp := (5 * doy + 2) / 153
  let d := doy - (153 * mp + 2) / 5 + 1
  let m := mp + (if mp < 10 then 3 else -9)
  (y + (if m ≤ 2 then 1 else 0), m, d)

/-- Conversion from a civil date to an epoch day number; this models
JavaScript's `new Date(year, monthIndex, day)` at midnight, with
`m = monthIndex + 1` (the formula is linear in `m` and `d`, so the
month-13/day-0 rollover of the `new Date(y, m + 1, 0)` idiom is
handled by the same expression). -/
def daysFromCivil (y0 m d : Int) : Int :=
  let y := y0 - (if m ≤ 2 then 1 else 0)
  let era := y / 400
  let yoe := y - era * 400
  let doy := (153 * (m + (if m > 2 then -3 else 9)) + 2) / 5 + d - 1
  let doe := yoe * 365 + yoe / 4 - yoe / 100 + doy
  era * 146097 + doe - 719468

/-- Start of the displayed month in milliseconds (`startOfMonth = new
Date(getFullYear(), getMonth(), 1)`, GymTracker.js line 322). -/
def monthStartMs (now : Int) : Int :=
  let c := civilFromDays (todayDay now)
  daysFromCivil c.1 c.2.1 1 * msPerDay

/-- End of the displayed month in milliseconds (`endOfMonth = new
Date(getFullYear(), getMonth() + 1, 0, 23, 59, 59, 999)`,
GymTracker.js line 323). -/
def monthEndMs (now : Int) : Int :=
  let c := civilFromDays (todayDay now)
  daysFromCivil c.1 (c.2.1 + 1) 0 * msPerDay + 86399999

/-- The `monthWorkouts` filter (GymTracker.js lines 325-335): keep
records whose date parses and lies between `startOfMonth` and
`endOfMonth` inclusive. -/
def monthWorkouts (now : Int) (ws : List Workout) : List Workout :=
  ws.filter fun w =>
    match w.date with
    | none => false
    | some t => decide (monthStartMs now ≤ t ∧ t ≤ monthEndMs now)

/-- The grouping key of `groupWorkoutsByDate` (GymTracker.js lines
343-356): the record's calendar day when its date parses, the current
date (`new Date().toLocaleDateString()`) otherwise.  A locale date
string is modelled by the epoch day number it displays. -/
def dateKey (now : Int) (w : Workout) : Int :=
  match w.date with
  | some t => dayOfMs t
  | none => dayOfMs now

/-- Appending one record to its group (GymTracker.js lines 358-362):
`if (!grouped[dateKey]) grouped[dateKey] = []; grouped[dateKey].push`. -/
def addToGroup (g : List (Int × List Workout)) (k : Int) (w : Workout) :
    List (Int × List Workout) :=
  if g.any fun e => decide (e.1 = k) then
    g.map fun e => if e.1 = k then (e.1, e.2 ++ [w]) else e
  else g ++ [(k, [w])]

/-- The `groupWorkoutsByDate` aggregation (GymTracker.js lines 338-366):
fold every record into the group of its date key, keys appearing in
first-occurrence order. -/
def groupWorkoutsByDate (now : Int) (ws : List Workout) :
    List (Int × List Workout) :=
  ws.foldl (fun g w => addToGroup g (dateKey now w) w) []

/-- First-match lookup of a group, the empty list on a missing key
(JavaScript's `grouped[dateStr] || []`, GymTracker.js line 824). -/
def groupGet (k : Int) : List (Int × List Workout) → List Workout
  | [] => []
  | e :: rest => if e.1 = k then e.2 else groupGet k rest


lemma jsDay_getStartOfWeek (d : Int) :
    jsDay (getStartOfWeek d) = 1 ∧
      getStartOfWeek d ≤ d ∧ d < getStartOfWeek d + 7 := by
  simp only [getStartOfWeek, jsDay]
  by_cases h : (d + 4) % 7 = 0
  · rw [if_pos h]
    refine ⟨?_, by omega, by omega⟩
    have hq : d - (d + 4) % 7 + -6 + 4 = 7 * ((d + 4) / 7) - 6 := by
      omega
    rw [hq]
    omega
  · rw [if_neg h]
    refine ⟨?_, by omega, by omega⟩
    have hq : d - (d + 4) % 7 + 1 + 4 = 7 * ((d + 4) / 7) + 1 := by
      omega
    rw [hq]
    omega

/-- The four sentinel records of the concrete Wednesday week-span
check: now is midnight Wednesday 1970-01-07 (epoch day 6), the week's
Monday is epoch day 4 and its Sunday epoch day 10. -/
def wedNow : Int := 6 * 86400000

def recMon : Workout := ⟨1, some (4 * 86400000), bicepsPart, 0, some 1⟩

def recSun : Workout :=
  ⟨2, some (10 * 86400000 + 3600000), bicepsPart, 0, some 1⟩

def recPrevMon : Workout := ⟨3, some (-(3 * 86400000)), bicepsPart, 0, some 1⟩

def recNextMon : Workout := ⟨4, some (11 * 86400000), bicepsPart, 0, some 1⟩

/-- C4: the week filter is Monday-to-Sunday: the computed week start is
always a Monday on or before the reference day (at most 6 days
earlier); when the reference day is a Sunday the start is exactly 6
days earlier; the filter keeps exactly the records whose parseable date
lies between that Monday at 00:00 and the following Sunday at
23:59:59.999 inclusive; and for a reference Wednesday the filter keeps
the Monday and Sunday records of that calendar week and drops the
preceding and following Mondays. -/
theorem weekWorkouts_span_spec :
    (∀ d : Int, jsDay (getStartOfWeek d) = 1 ∧
      getStartOfWeek d ≤ d ∧ d < getStartOfWeek d + 7) ∧
    (∀ d : Int, jsDay d = 0 → getStartOfWeek d = d - 6) ∧
    (∀ (now : Int) (ws : List Workout) (w : Workout),
      w ∈ weekWorkouts now ws ↔ w ∈ ws ∧ ∃ t, w.date = some t ∧
        weekStartMs now ≤ t ∧ t ≤ weekEndMs now) ∧
    (jsDay (todayDay wedNow) = 3 ∧
      weekWorkouts wedNow [recMon, recSun, recPrevMon, recNextMon] =
        [recMon, recSun]) := by
  refine ⟨jsDay_getStartOfWeek, ?_, ?_, by decide, by decide⟩
  · intro d h
    simp only [jsDay] at h
    simp only [getStartOfWeek, jsDay]
    rw [if_pos h]
    omega
  · intro now ws w
    simp only [weekWorkouts, List.mem_filter]
    cases hd : w.date with
    | none => simp [hd]
    | some t => simp [hd]

/-- C4 witness: the membership characterization instantiated on the
Sunday record of the concrete Wednesday week, and the Sunday
special-case at epoch day 3 (Sunday 1970-01-04). -/
theorem weekWorkouts_span_spec_witness :
    (recSun ∈ weekWorkouts wedNow [recMon, recSun] ↔
      recSun ∈ [recMon, recSun] ∧ ∃ t, recSun.date = some t ∧
        weekStartMs wedNow ≤ t ∧ t ≤ weekEndMs wedNow) ∧
    getStartOfWeek 3 = 3 - 6 :=
  ⟨weekWorkouts_span_spec.2.2.1 wedNow [recMon, recSun] recSun,
   weekWorkouts_span_spec.2.1 3 (by decide)⟩

lemma groupGet_map_self {g : List (Int × List Workout)} {k : Int}
    (hk : (g.any fun e => decide (e.1 = k)) = true) (w : Workout) :
    groupGet k (g.map fun e => if e.1 = k then (e.1, e.2 ++ [w]) else e) =
      groupGet k g ++ [w] := by
  induction g with
  | nil => simp at hk
  | cons e rest ih =>
    by_cases he : e.1 = k
    · rw [List.map_cons, if_pos he]
      show (if e.1 = k then e.2 ++ [w] else _) = (if e.1 = k then e.2 else _) ++ [w]
      rw [if_pos he, if_pos he]
    · rw [List.any_cons] at hk
      have hk' : (rest.any fun e => decide (e.1 = k)) = true := by
        rcases Bool.or_eq_true_iff.1 hk with h | h
        · exact absurd (of_decide_eq_true h) he
        · exact h
      rw [List.map_cons, if_neg he]
      show (if e.1 = k then e.2 else _) = (if e.1 = k then e.2 else _) ++ [w]
      rw [if_neg he, if_neg he]
      exact ih hk'

lemma groupGet_map_ne {k k' : Int} (hne : k' ≠ k)
    (g : List (Int × List Workout)) (w : Workout) :
    groupGet k' (g.map fun e => if e.1 = k then (e.1, e.2 ++ [w]) else e) =
      groupGet k' g := by
  induction g with
  | nil => rfl
  | cons e rest ih =>
    rw [List.map_cons]
    by_cases he : e.1 = k
    · have h' : e.1 ≠ k' := by rw [he]; exact Ne.symm hne
      rw [if_pos he]
      show (if e.1 = k' then e.2 ++ [w] else _) = (if e.1 = k' then e.2 else _)
      rw [if_neg h', if_neg h']
      exact ih
    · rw [if_neg he]
      show (if e.1 = k' then e.2 else _) = (if e.1 = k' then e.2 else _)
      by_cases he' : e.1 = k'
      · rw [if_pos he', if_pos he']
      · rw [if_neg he', if_neg he']
        exact ih

lemma groupGet_of_not_found {g : List (Int × List Workout)} {k : Int}
    (h : (g.any fun e => decide (e.1 = k)) = false)
    (l : List (Int × List Workout)) :
    groupGet k (g ++ l) = groupGet k l := by
  induction g with
  | nil => rfl
  | cons e rest ih =>
    rw [List.any_cons, Bool.or_eq_false_iff] at h
    have he : e.1 ≠ k := of_decide_eq_false h.1
    rw [List.cons_append]
    show (if e.1 = k then e.2 else groupGet k (rest ++ l)) = groupGet k l
    rw [if_neg he]
    exact ih h.2

lemma groupGet_addToGroup_self (g : List (Int × List Workout)) (k : Int)
    (w : Workout) : groupGet k (addToGroup g k w) = groupGet k g ++ [w] := by
  rw [addToGroup]
  split
  · rename_i hk
    exact groupGet_map_self hk w
  · rename_i hk
    rw [Bool.not_eq_true] at hk
    rw [groupGet_of_not_found hk]
    have hg : groupGet k g = [] := by
      have := groupGet_of_not_found hk []
      rwa [List.append_nil] at this
    rw [hg]
    show (if k = k then [w] else groupGet k []) = [] ++ [w]
    rw [if_pos rfl, List.nil_append]

lemma groupGet_append_single_ne {k k' : Int} (hne : k' ≠ k)
    (g : List (Int × List Workout)) (w : Workout) :
    groupGet k' (g ++ [(k, [w])]) = groupGet k' g := by
  induction g with
  | nil =>
    show (if k = k' then [w] else groupGet k' []) = []
    rw [if_neg (Ne.symm hne)]
    rfl
  | cons e rest ih =>
    rw [List.cons_append]
    show (if e.1 = k' then e.2 else _) = (if e.1 = k' then e.2 else _)
    by_cases he : e.1 = k'
    · rw [if_pos he, if_pos he]
    · rw [if_neg he, if_neg he]
      exact ih

lemma groupGet_addToGroup_ne {k k' : Int} (hne : k' ≠ k)
    (g : List (Int × List Workout)) (w : Workout) :
    groupGet k' (addToGroup g k w) = groupGet k' g := by
  rw [addToGroup]
  split
  · exact groupGet_map_ne hne g w
  · exact groupGet_append_single_ne hne g w

lemma groupGet_fold (now : Int) (ws : List Workout) :
    ∀ (g : List (Int × List Workout)) (k : Int),
      groupGet k (ws.foldl (fun g w => addToGroup g (dateKey now w) w) g) =
        groupGet k g ++ ws.filter fun w => decide (dateKey now w = k) := by
  induction ws with
  | nil => intro g k; simp
  | cons w rest ih =>
    intro g k
    rw [List.foldl_cons, ih, List.filter_cons]
    by_cases hk : dateKey now w = k
    · rw [if_pos (by simpa using hk), ← hk, groupGet_addToGroup_self,
        List.append_assoc, List.singleton_append, hk]
    · rw [if_neg (by simpa using hk),
        groupGet_addToGroup_ne (fun hc => hk hc.symm)]

/-- C5: malformed-date handling is total and asymmetric: a record whose
date does not parse is excluded from the day, week and month filters
(each a total function, never an exception), whereas
`groupWorkoutsByDate` keeps every record — each record lands in the
group of its date key, and a record with an unparseable date lands in
the group of the current date (the day of `now`). -/
theorem malformedDate_handling_spec :
    (∀ (now : Int) (ws : List Workout) (w : Workout), w.date = none →
      w ∉ todayWorkouts now ws ∧ w ∉ weekWorkouts now ws ∧
        w ∉ monthWorkouts now ws) ∧
    (∀ (now : Int) (ws : List Workout) (w : Workout), w ∈ ws →
      w ∈ groupGet (dateKey now w) (groupWorkoutsByDate now ws)) ∧
    (∀ (now : Int) (ws : List Workout) (w : Workout), w ∈ ws →
      w.date = none →
      w ∈ groupGet (dayOfMs now) (groupWorkoutsByDate now ws)) := by
  have hgrp : ∀ (now : Int) (ws : List Workout) (w : Workout), w ∈ ws →
      w ∈ groupGet (dateKey now w) (groupWorkoutsByDate now ws) := by
    intro now ws w hw
    rw [groupWorkoutsByDate, groupGet_fold now ws [] (dateKey now w)]
    show w ∈ [] ++ _
    rw [List.nil_append]
    exact List.mem_filter.2 ⟨hw, by simp⟩
  refine ⟨?_, hgrp, ?_⟩
  · intro now ws w hd
    refine ⟨?_, ?_, ?_⟩ <;>
      · intro hmem
        simp only [todayWorkouts, weekWorkouts, monthWorkouts,
          List.mem_filter, hd] at hmem
        exact Bool.noConfusion hmem.2
  · intro now ws w hw hd
    have hin := hgrp now ws w hw
    rwa [dateKey, hd] at hin

/-- C5 witness: a record with an unparseable date in a two-record
collection is excluded from all three bucket filters but appears in the
group of the current day. -/
theorem malformedDate_handling_spec_witness :
    (⟨5, none, bicepsPart, 0, some 2⟩ : Workout) ∉
        todayWorkouts 0 [⟨5, none, bicepsPart, 0, some 2⟩, recMon] ∧
    (⟨5, none, bicepsPart, 0, some 2⟩ : Workout) ∉
        weekWorkouts 0 [⟨5, none, bicepsPart, 0, some 2⟩, recMon] ∧
    (⟨5, none, bicepsPart, 0, some 2⟩ : Workout) ∉
        monthWorkouts 0 [⟨5, none, bicepsPart, 0, some 2⟩, recMon] ∧
    (⟨5, none, bicepsPart, 0, some 2⟩ : Workout) ∈
      groupGet (dayOfMs 0)
        (groupWorkoutsByDate 0 [⟨5, none, bicepsPart, 0, some 2⟩, recMon]) := by
  have h1 := (malformedDate_handling_spec.1 0
    [⟨5, none, bicepsPart, 0, some 2⟩, recMon]
    ⟨5, none, bicepsPart, 0, some 2⟩ rfl)
  have h2 := malformedDate_handling_spec.2.2 0
    [⟨5, none, bicepsPart, 0, some 2⟩, recMon]
    ⟨5, none, bicepsPart, 0, some 2⟩ (by decide) rfl
  exact ⟨h1.1, h1.2.1, h1.2.2, h2⟩

/-- The per-group stat record computed by `calculateMuscleStats`
(GymTracker.js lines 422-429). -/
structure MuscleStat where
  sets : Int
  percentage : ℚ
  level : Int
  rank : String
  color : String
  icon : String
deriving DecidableEq

/-- `Math.max(...Object.values(totalSets))` (GymTracker.js line 393):
the maximum over the (always 9-entry) counts object's values. -/
def maxSetsOf (counts : List (String × Int)) : Int :=
  match counts.map Prod.snd with
  | [] => 0
  | v :: vs => vs.foldl max v

/-- The `calculateMuscleStats` derivation (GymTracker.js lines 388-433):
the empty collection short-circuits to an empty stats object; otherwise
each catalog group gets its total (`totalSets[part.name] || 0`), its
percentage of the maximum (guarded by `maxSets > 0`, else 0), and
level/rank/color from the step cascade. -/
def calculateMuscleStats (ws : List Workout) : List (String × MuscleStat) :=
  if ws = [] then []
  else bodyParts.map fun part =>
    (part.name,
      { sets := getCount part.name (countSetsByBodyPart ws)
        percentage :=
          if maxSetsOf (countSetsByBodyPart ws) > 0 then
            ((getCount part.name (countSetsByBodyPart ws) : ℚ) /
              (maxSetsOf (countSetsByBodyPart ws) : ℚ)) * 100
          else 0
        level := muscleGroupLevel (getCount part.name (countSetsByBodyPart ws))
        rank := muscleGroupRank (getCount part.name (countSetsByBodyPart ws))
        color :=
          muscleGroupColor (getCount part.name (countSetsByBodyPart ws))
        icon := part.icon })

/-- First-match lookup of a group's stat record. -/
def statsGet (n : String) : List (String × MuscleStat) → Option MuscleStat
  | [] => none
  | e :: rest => if e.1 = n then some e.2 else statsGet n rest

/-- The percentage the view reads
(`muscleStats[part.name]?.percentage || 0`, GymTracker.js line 696):
the stat's percentage when the key exists, 0 otherwise. -/
def displayedPercentage (ws : List Workout) (n : String) : ℚ :=
  match statsGet n (calculateMuscleStats ws) with
  | some s => s.percentage
  | none => 0

/-- The duration span shown for a day's workouts (GymTracker.js lines
566-574): defined only when more than one record exists, as
`floor((max timestamp - min timestamp) / 60000)` minutes. -/
def durationSpan (ws : List Workout) : Option Int :=
  match ws with
  | [] => none
  | [_] => none
  | w :: rest =>
    let times := (w :: rest).map Workout.timestamp
    some ((times.foldl max w.timestamp - times.foldl min w.timestamp) / 60000)

lemma statsGet_map (f : BodyPart → MuscleStat) :
    ∀ (l : List BodyPart), (l.map BodyPart.name).Nodup → ∀ p ∈ l,
      statsGet p.name (l.map fun q => (q.name, f q)) = some (f p) := by
  intro l
  induction l with
  | nil => intro _ p hp; simp at hp
  | cons q rest ih =>
    intro hnd p hp
    rw [List.map_cons, List.nodup_cons] at hnd
    rcases List.mem_cons.1 hp with rfl | hp'
    · rw [List.map_cons]
      show (if p.name = p.name then some (f p) else _) = some (f p)
      rw [if_pos rfl]
    · have hne : q.name ≠ p.name := by
        intro hc
        exact hnd.1 (hc ▸ List.mem_map.2 ⟨p, hp', rfl⟩)
      rw [List.map_cons]
      show (if q.name = p.name then some (f q) else _) = some (f p)
      rw [if_neg hne]
      exact ih hnd.2 p hp'

lemma le_foldl_max (l : List Int) : ∀ a : Int, a ≤ l.foldl max a := by
  induction l with
  | nil => intro a; exact le_refl a
  | cons x rest ih =>
    intro a
    exact le_trans (le_max_left a x) (ih (max a x))

lemma mem_le_foldl_max (l : List Int) :
    ∀ (a x : Int), x ∈ l → x ≤ l.foldl max a := by
  induction l with
  | nil => intro _ x hx; simp at hx
  | cons y rest ih =>
    intro a x hx
    rcases List.mem_cons.1 hx with rfl | hx'
    · exact le_trans (le_max_right a x) (le_foldl_max rest (max a x))
    · exact ih (max a y) x hx'

lemma le_maxSetsOf {counts : List (String × Int)} {v : Int}
    (hv : v ∈ counts.map Prod.snd) : v ≤ maxSetsOf counts := by
  rw [maxSetsOf]
  cases h : counts.map Prod.snd with
  | nil => rw [h] at hv; simp at hv
  | cons a vs =>
    rw [h] at hv
    rcases List.mem_cons.1 hv with rfl | hv'
    · exact le_foldl_max vs v
    · exact mem_le_foldl_max vs a v hv'

lemma getCount_pair_mem {counts : List (String × Int)} {k : String}
    (hk : k ∈ counts.map Prod.fst) : (k, getCount k counts) ∈ counts := by
  induction counts with
  | nil => simp at hk
  | cons e rest ih =>
    by_cases he : e.1 = k
    · rw [getCount, if_pos he, ← he]
      exact List.mem_cons_self e rest
    · rw [List.map_cons, List.mem_cons] at hk
      rcases hk with hk | hk
      · exact absurd hk.symm he
      · rw [getCount, if_neg he]
        exact List.mem_cons_of_mem e (ih hk)

lemma getCount_mem_nodup {counts : List (String × Int)} {k : String} {v : Int}
    (hnd : (counts.map Prod.fst).Nodup) (hm : (k, v) ∈ counts) :
    getCount k counts = v := by
  induction counts with
  | nil => simp at hm
  | cons e rest ih =>
    rw [List.map_cons, List.nodup_cons] at hnd
    rcases List.mem_cons.1 hm with rfl | hm'
    · rw [getCount, if_pos rfl]
    · have hne : e.1 ≠ k := by
        intro hc
        exact hnd.1 (hc ▸ List.mem_map.2 ⟨(k, v), hm', rfl⟩)
      rw [getCount, if_neg hne]
      exact ih hnd.2 hm'

lemma one_le_sum {m : List Int} (h1 : ∀ x ∈ m, 1 ≤ x) (hne : m ≠ []) :
    1 ≤ m.sum := by
  cases m with
  | nil => exact absurd rfl hne
  | cons a t =>
    rw [List.sum_cons]
    have ha : 1 ≤ a := h1 a (List.mem_cons_self a t)
    have ht : 0 ≤ t.sum :=
      List.sum_nonneg fun x hx => le_trans zero_le_one
        (h1 x (List.mem_cons_of_mem a hx))
    omega

lemma setsTotal_pos {ws : List Workout} {w : Workout} (hw : w ∈ ws)
    (hsets : ∀ x ∈ ws, 1 ≤ orOne x.sets) :
    1 ≤ setsTotal ws w.bodyPart.name := by
  rw [setsTotal]
  refine one_le_sum ?_ ?_
  · intro x hx
    obtain ⟨y, hy, rfl⟩ := List.mem_map.1 hx
    exact hsets y (List.mem_filter.1 hy).1
  · intro hc
    rw [List.map_eq_nil_iff] at hc
    have hmem :
        w ∈ ws.filter fun x => decide (x.bodyPart.name = w.bodyPart.name) :=
      List.mem_filter.2 ⟨hw, by simp⟩
    rw [hc] at hmem
    simp at hmem

lemma foldl_max_zeros : ∀ (vs : List Int) (a : Int),
    (∀ x ∈ vs, x = 0) → a = 0 → vs.foldl max a = 0 := by
  intro vs
  induction vs with
  | nil => intro a _ ha; exact ha
  | cons x rest ih =>
    intro a hz ha
    rw [List.foldl_cons]
    refine ih (max a x) (fun y hy => hz y (List.mem_cons_of_mem x hy)) ?_
    rw [ha, hz x (List.mem_cons_self x rest)]
    exact max_self 0

lemma maxSetsOf_zero {counts : List (String × Int)}
    (hz : ∀ v ∈ counts.map Prod.snd, v = 0) : maxSetsOf counts = 0 := by
  rw [maxSetsOf]
  cases h : counts.map Prod.snd with
  | nil => rfl
  | cons a vs =>
    have hz' : ∀ v ∈ a :: vs, v = 0 := h ▸ hz
    exact foldl_max_zeros vs a
      (fun x hx => hz' x (List.mem_cons_of_mem a hx))
      (hz' a (List.mem_cons_self a vs))

lemma statsGet_calculateMuscleStats {ws : List Workout} {p : BodyPart}
    (hne : ws ≠ []) (hp : p ∈ bodyParts) :
    statsGet p.name (calculateMuscleStats ws) = some
      { sets := getCount p.name (countSetsByBodyPart ws)
        percentage :=
          if maxSetsOf (countSetsByBodyPart ws) > 0 then
            ((getCount p.name (countSetsByBodyPart ws) : ℚ) /
              (maxSetsOf (countSetsByBodyPart ws) : ℚ)) * 100
          else 0
        level := muscleGroupLevel (getCount p.name (countSetsByBodyPart ws))
        rank := muscleGroupRank (getCount p.name (countSetsByBodyPart ws))
        color := muscleGroupColor (getCount p.name (countSetsByBodyPart ws))
        icon := p.icon } := by
  rw [calculateMuscleStats, if_neg hne]
  exact statsGet_map _ bodyParts (by decide) p hp

lemma displayedPercentage_of_statsGet {ws : List Workout} {n : String}
    {s : MuscleStat} (h : statsGet n (calculateMuscleStats ws) = some s) :
    displayedPercentage ws n = s.percentage := by
  rw [displayedPercentage, h]

/-- C8: each group's percentage-of-max: on a nonempty catalog-named
collection with every effective `sets` at least 1, the maximum group
total is strictly positive (so the division is only ever performed with
a nonzero divisor) and every catalog group's displayed percentage is its
total divided by the maximum total times 100; on the empty collection
the displayed percentage is 0; and whenever every group's total is 0
the displayed percentage is 0 (the `maxSets > 0` guard takes the 0
branch instead of dividing). -/
theorem musclePercentage_spec :
    (∀ n : String, displayedPercentage [] n = 0) ∧
    (∀ ws : List Workout, ws ≠ [] →
      (∀ w ∈ ws, w.bodyPart.name ∈ bodyParts.map BodyPart.name) →
      (∀ w ∈ ws, 1 ≤ orOne w.sets) →
      0 < maxSetsOf (countSetsByBodyPart ws) ∧
      ∀ p ∈ bodyParts, displayedPercentage ws p.name =
        ((getCount p.name (countSetsByBodyPart ws) : ℚ) /
          (maxSetsOf (countSetsByBodyPart ws) : ℚ)) * 100) ∧
    (∀ ws : List Workout,
      (∀ p ∈ bodyParts, getCount p.name (countSetsByBodyPart ws) = 0) →
      ∀ p ∈ bodyParts, displayedPercentage ws p.name = 0) := by
  have hnd : (bodyParts.map BodyPart.name).Nodup := by decide
  refine ⟨fun n => rfl, ?_, ?_⟩
  · intro ws hne hcat hsets
    obtain ⟨w, hw⟩ : ∃ w, w ∈ ws := by
      cases ws with
      | nil => exact absurd rfl hne
      | cons a l => exact ⟨a, List.mem_cons_self a l⟩
    have hname := hcat w hw
    obtain ⟨p0, hp0, hp0name⟩ := List.mem_map.1 hname
    have hgc : getCount w.bodyPart.name (countSetsByBodyPart ws) =
        setsTotal ws w.bodyPart.name := by
      rw [← hp0name]
      exact getCount_countSets hp0 ws
    have hpos1 : 1 ≤ getCount w.bodyPart.name (countSetsByBodyPart ws) := by
      rw [hgc]
      exact setsTotal_pos hw hsets
    have hkey : w.bodyPart.name ∈ (countSetsByBodyPart ws).map Prod.fst := by
      rw [keys_countSets]
      exact hname
    have hvmem : getCount w.bodyPart.name (countSetsByBodyPart ws) ∈
        (countSetsByBodyPart ws).map Prod.snd :=
      List.mem_map.2 ⟨_, getCount_pair_mem hkey, rfl⟩
    have hmaxpos : 0 < maxSetsOf (countSetsByBodyPart ws) :=
      lt_of_lt_of_le Int.zero_lt_one (le_trans hpos1 (le_maxSetsOf hvmem))
    refine ⟨hmaxpos, ?_⟩
    intro p hp
    rw [displayedPercentage_of_statsGet (statsGet_calculateMuscleStats hne hp)]
    exact if_pos hmaxpos
  · intro ws hz p hp
    by_cases hne : ws = []
    · subst hne
      rfl
    · have hkeys := keys_countSets ws
      have hcne : countSetsByBodyPart ws ≠ [] := by
        intro hc
        rw [hc] at hkeys
        simp [bodyParts] at hkeys
      have hznd : ((countSetsByBodyPart ws).map Prod.fst).Nodup := by
        rw [hkeys]
        exact hnd
      have hvz : ∀ v ∈ (countSetsByBodyPart ws).map Prod.snd, v = 0 := by
        intro v hv
        obtain ⟨e, he, rfl⟩ := List.mem_map.1 hv
        have he1 : e.1 ∈ (countSetsByBodyPart ws).map Prod.fst :=
          List.mem_map.2 ⟨e, he, rfl⟩
        rw [hkeys] at he1
        obtain ⟨q, hq, hqname⟩ := List.mem_map.1 he1
        have hpair : (e.1, e.2) ∈ countSetsByBodyPart ws := by
          rwa [Prod.mk.eta]
        have hgv := getCount_mem_nodup hznd hpair
        have hg0 : getCount e.1 (countSetsByBodyPart ws) = 0 := by
          rw [← hqname]
          exact hz q hq
        rw [hgv] at hg0
        exact hg0
      have hmax0 : maxSetsOf (countSetsByBodyPart ws) = 0 :=
        maxSetsOf_zero hvz
      rw [displayedPercentage_of_statsGet (statsGet_calculateMuscleStats hne hp)]
      refine if_neg ?_
      rw [hmax0]
      exact lt_irrefl 0

/-- C8 witness: the percentage formula on a concrete one-record Biceps
collection, and the all-zero case on the empty collection. -/
theorem musclePercentage_spec_witness :
    (0 < maxSetsOf (countSetsByBodyPart [recMon]) ∧
      displayedPercentage [recMon] "Biceps" =
        ((getCount "Biceps" (countSetsByBodyPart [recMon]) : ℚ) /
          (maxSetsOf (countSetsByBodyPart [recMon]) : ℚ)) * 100) ∧
    displayedPercentage [] "Abs" = 0 :=
  ⟨⟨(musclePercentage_spec.2.1 [recMon] (by decide) (by decide) (by decide)).1,
    (musclePercentage_spec.2.1 [recMon] (by decide) (by decide)
      (by decide)).2 bicepsPart (by decide)⟩,
   musclePercentage_spec.2.2 [] (by decide) ⟨"abs", "Abs"⟩ (by decide)⟩

/-- The component state the Aggregation Engine functions can see: the
in-memory collection, the reference instant, and hidden mutable state
(the last-save timestamp ref, the transient status banner, the selected
view) that the engine must not depend on. -/
structure Env where
  workouts : List Workout
  nowMs : Int
  lastSaveTime : Int
  backupStatus : String
  view : String

/-- `todayWorkouts` as read from the component state. -/
def envTodayWorkouts (e : Env) : List Workout :=
  todayWorkouts e.nowMs e.workouts

/-- `weekWorkouts` as read from the component state. -/
def envWeekWorkouts (e : Env) : List Workout :=
  weekWorkouts e.nowMs e.workouts

/-- `monthWorkouts` as read from the component state. -/
def envMonthWorkouts (e : Env) : List Workout :=
  monthWorkouts e.nowMs e.workouts

/-- `groupWorkoutsByDate(weekWorkouts)` as computed at
GymTracker.js line 368. -/
def envGroupedWeek (e : Env) : List (Int × List Workout) :=
  groupWorkoutsByDate e.nowMs (weekWorkouts e.nowMs e.workouts)

/-- `countSetsByBodyPart(workouts)` as read from the component state. -/
def envCounts (e : Env) : List (String × Int) :=
  countSetsByBodyPart e.workouts

/-- `calculateMuscleStats` (levels included) as read from the component
state. -/
def envStats (e : Env) : List (String × MuscleStat) :=
  calculateMuscleStats e.workouts

/-- The duration span of today's workouts as read from the component
state (GymTracker.js lines 566-574). -/
def envDurationSpan (e : Env) : Option Int :=
  durationSpan (todayWorkouts e.nowMs e.workouts)

/-- C6: every Aggregation Engine function is pure and deterministic:
its result depends only on the collection and the reference instant —
two states agreeing on `workouts` and `nowMs` but differing arbitrarily
in the hidden mutable state (last-save time, status banner, selected
view) yield identical day/week/month filters, groupings, per-group set
totals, muscle stats (levels), and duration spans. -/
theorem aggregation_pure_spec :
    ∀ e1 e2 : Env, e1.workouts = e2.workouts → e1.nowMs = e2.nowMs →
      envTodayWorkouts e1 = envTodayWorkouts e2 ∧
      envWeekWorkouts e1 = envWeekWorkouts e2 ∧
      envMonthWorkouts e1 = envMonthWorkouts e2 ∧
      envGroupedWeek e1 = envGroupedWeek e2 ∧
      envCounts e1 = envCounts e2 ∧
      envStats e1 = envStats e2 ∧
      envDurationSpan e1 = envDurationSpan e2 := by
  intro e1 e2 hw hn
  rw [envTodayWorkouts, envWeekWorkouts, envMonthWorkouts, envGroupedWeek,
    envCounts, envStats, envDurationSpan, hw, hn]
  exact ⟨rfl, rfl, rfl, rfl, rfl, rfl, rfl⟩

/-- C6 witness: two concrete states with the same collection and
reference instant but different last-save times, status banners and
selected views produce identical aggregation results. -/
theorem aggregation_pure_spec_witness :
    envTodayWorkouts ⟨[recMon], wedNow, 0, "", "today"⟩ =
        envTodayWorkouts ⟨[recMon], wedNow, 999, "Saved to device storage",
          "analysis"⟩ ∧
    envWeekWorkouts ⟨[recMon], wedNow, 0, "", "today"⟩ =
        envWeekWorkouts ⟨[recMon], wedNow, 999, "Saved to device storage",
          "analysis"⟩ ∧
    envMonthWorkouts ⟨[recMon], wedNow, 0, "", "today"⟩ =
        envMonthWorkouts ⟨[recMon], wedNow, 999, "Saved to device storage",
          "analysis"⟩ ∧
    envGroupedWeek ⟨[recMon], wedNow, 0, "", "today"⟩ =
        envGroupedWeek ⟨[recMon], wedNow, 999, "Saved to device storage",
          "analysis"⟩ ∧
    envCounts ⟨[recMon], wedNow, 0, "", "today"⟩ =
        envCounts ⟨[recMon], wedNow, 999, "Saved to device storage",
          "analysis"⟩ ∧
    envStats ⟨[recMon], wedNow, 0, "", "today"⟩ =
        envStats ⟨[recMon], wedNow, 999, "Saved to device storage",
          "analysis"⟩ ∧
    envDurationSpan ⟨[recMon], wedNow, 0, "", "today"⟩ =
        envDurationSpan ⟨[recMon], wedNow, 999, "Saved to device storage",
          "analysis"⟩ :=
  aggregation_pure_spec ⟨[recMon], wedNow, 0, "", "today"⟩
    ⟨[recMon], wedNow, 999, "Saved to device storage", "analysis"⟩ rfl rfl

/-- A State Controller operation affecting record identity: an
`addWorkout` call (with its wall-clock millisecond and `Math.random()`
draw) or a `removeWorkout` call. -/
inductive AppOp where
  | add (t : Int) (r : ℚ) (part : BodyPart)
  | remove (i : ℚ)

/-- The id value `Date.now() + Math.random()` generated by an add
operation; remove generates none. -/
def genId : AppOp → Option ℚ
  | .add t r _ => some ((t : ℚ) + r)
  | .remove _ => none

/-- One controller operation applied to the collection. -/
def applyOp (ws : List Workout) : AppOp → List Workout
  | .add t r p => addWorkout t r p ws
  | .remove i => removeWorkout i ws

/-- A sequence of controller operations applied in order. -/
def applyOps (ws : List Workout) (ops : List AppOp) : List Workout :=
  ops.foldl applyOp ws

lemma applyOps_ids_sublist (ops : List AppOp) :
    ∀ ws : List Workout,
      List.Sublist ((applyOps ws ops).map Workout.id)
        (ws.map Workout.id ++ ops.filterMap genId) := by
  induction ops with
  | nil =>
    intro ws
    rw [applyOps, List.foldl_nil, List.filterMap_nil, List.append_nil]
  | cons op rest ih =>
    intro ws
    rw [applyOps, List.foldl_cons]
    cases op with
    | add t r p =>
      have h := ih (addWorkout t r p ws)
      rw [applyOps] at h
      simp only [addWorkout, List.map_append, List.map_cons, List.map_nil,
        List.append_assoc, List.singleton_append] at h
      simp only [List.filterMap_cons, genId]
      exact h
    | remove i =>
      have h := ih (removeWorkout i ws)
      rw [applyOps] at h
      rw [List.filterMap_cons]
      refine h.trans ?_
      refine List.Sublist.append_right ?_ _
      exact List.Sublist.map Workout.id (List.filter_sublist ws)

/-- C7 counterexample: two `addWorkout` calls in the same millisecond
(`Date.now() = 0`) with the same `Math.random()` draw (0, a value in
the function's [0,1) range) generate equal ids, so the collection holds
two records with the same id — the generated id is not distinct from
the ids already present. -/
theorem addWorkout_id_collision :
    ((0 : Int) : ℚ) + 0 ∈ (addWorkout 0 0 bicepsPart []).map Workout.id ∧
    ¬ (((addWorkout 0 0 bicepsPart
          (addWorkout 0 0 bicepsPart [])).map Workout.id).Nodup) ∧
    (0 : ℚ) ≤ 0 ∧ (0 : ℚ) < 1 := by
  have h1 : (addWorkout 0 0 bicepsPart []).map Workout.id = [0] := by
    norm_num [addWorkout]
  have h2 : (addWorkout 0 0 bicepsPart
      (addWorkout 0 0 bicepsPart [])).map Workout.id = [0, 0] := by
    norm_num [addWorkout]
  refine ⟨?_, ?_, le_refl 0, zero_lt_one⟩
  · rw [h1]
    norm_num
  · rw [h2]
    decide

/-- C7 amended: `addWorkout` performs no uniqueness check, so id
uniqueness holds exactly when the environment-supplied generated values
`Date.now() + Math.random()` never repeat: if the initial ids together
with every add operation's generated value are pairwise distinct, then
after any sequence of add/remove operations no two records in the
collection share an id. -/
theorem workoutIds_nodup_spec (ws : List Workout) (ops : List AppOp)
    (h : (ws.map Workout.id ++ ops.filterMap genId).Nodup) :
    ((applyOps ws ops).map Workout.id).Nodup :=
  (applyOps_ids_sublist ops ws).nodup h

/-- C7 witness: two adds at distinct milliseconds followed by a remove
keep the collection's ids duplicate-free. -/
theorem workoutIds_nodup_spec_witness :
    ((applyOps [] [AppOp.add 0 0 bicepsPart, AppOp.add 1 0 bicepsPart,
        AppOp.remove 0]).map Workout.id).Nodup :=
  workoutIds_nodup_spec [] _
    (by simp [genId, List.filterMap_cons, List.nodup_cons])

/-- `store.add(workout)` on the id-keyed object store created with
`keyPath: 'id'` (GymTracker.js lines 28, 58-60): adding a record whose
key is already present raises a transaction error (`none`); otherwise
the record is inserted. -/
def storeAdd (db : List Workout) (w : Workout) : Option (List Workout) :=
  if db.any fun x => decide (x.id = w.id) then none else some (db ++ [w])

/-- The `data.forEach(workout => store.add(workout))` loop of the save
transaction (GymTracker.js lines 58-60); the first failing add aborts
the transaction. -/
def storeAddAll (db : List Workout) : List Workout → Option (List Workout)
  | [] => some db
  | w :: rest =>
    match storeAdd db w with
    | some db2 => storeAddAll db2 rest
    | none => none

/-- The `saveToIndexedDB` transaction (GymTracker.js lines 42-78):
`store.clear()` then add every record of `data` (the empty `data` case
still clears, by design); an aborted transaction rolls the store back
to its previous contents. -/
def saveToIndexedDB (data db : List Workout) : List Workout :=
  match storeAddAll [] data with
  | some db2 => db2
  | none => db

/-- The `loadFromIndexedDB` read (GymTracker.js lines 80-100):
`store.getAll()` resolves with every persisted record (the model
abstracts the store's key ordering; the round-trip claim compares
collections as sets keyed by id, for which list order is irrelevant). -/
def loadFromIndexedDB (db : List Workout) : List Workout := db

lemma storeAddAll_of_nodup :
    ∀ (data acc : List Workout),
      (acc.map Workout.id ++ data.map Workout.id).Nodup →
      storeAddAll acc data = some (acc ++ data) := by
  intro data
  induction data with
  | nil =>
    intro acc _
    rw [storeAddAll, List.append_nil]
  | cons w rest ih =>
    intro acc h
    have hdisj : ∀ x ∈ acc, x.id ≠ w.id := by
      intro x hx hc
      rcases List.nodup_append.1 h with ⟨_, _, hd⟩
      exact hd (List.mem_map.2 ⟨x, hx, rfl⟩)
        (by rw [List.map_cons, hc]; exact List.mem_cons_self _ _)
    have hany : (acc.any fun x => decide (x.id = w.id)) = false := by
      rw [List.any_eq_false]
      intro x hx
      simpa using hdisj x hx
    rw [storeAddAll, storeAdd, if_neg (by rw [hany]; exact Bool.false_ne_true)]
    have h' : ((acc ++ [w]).map Workout.id ++ rest.map Workout.id).Nodup := by
      rw [List.map_append, List.append_assoc]
      simpa using h
    show storeAddAll (acc ++ [w]) rest = some (acc ++ w :: rest)
    rw [ih (acc ++ [w]) h', List.append_assoc, List.singleton_append]

/-- C9: the save/load round-trip: for every collection with pairwise
distinct ids (the data-model invariant for a set keyed by id),
`saveAll` followed by `load` returns exactly that collection — in
particular equal as a set keyed by id — and saving the empty
collection followed by `load` returns the empty collection, whatever
was previously persisted (the save clears rather than no-ops). -/
theorem saveLoad_roundtrip_spec :
    (∀ data db : List Workout, (data.map Workout.id).Nodup →
      loadFromIndexedDB (saveToIndexedDB data db) = data) ∧
    (∀ db : List Workout, loadFromIndexedDB (saveToIndexedDB [] db) = []) := by
  constructor
  · intro data db h
    rw [loadFromIndexedDB, saveToIndexedDB,
      storeAddAll_of_nodup data [] (by simpa using h)]
    rfl
  · intro db
    rfl

/-- C9 witness: the round-trip on a concrete two-record collection over
a nonempty previously-persisted store, and the empty save clearing that
same store. -/
theorem saveLoad_roundtrip_spec_witness :
    loadFromIndexedDB (saveToIndexedDB [recMon, recSun] [recPrevMon]) =
        [recMon, recSun] ∧
    loadFromIndexedDB (saveToIndexedDB [] [recPrevMon]) = [] :=
  ⟨saveLoad_roundtrip_spec.1 [recMon, recSun] [recPrevMon] (by decide),
   saveLoad_roundtrip_spec.2 [recPrevMon]⟩

/-- How the `clearAllWorkouts` transaction can end: `oncomplete`,
`onerror` (the clear is rolled back with the transaction), or a thrown
exception caught by the surrounding `try` (nothing was cleared). -/
inductive ClearOutcome where
  | complete
  | txError
  | exception

/-- The component state touched by `clearAllWorkouts`. -/
structure AppState where
  workouts : List Workout
  showResetModal : Bool
  backupStatus : String
  db : List Workout
  alerted : Bool

/-- The `clearAllWorkouts` action (GymTracker.js lines 139-163): only
the `oncomplete` handler empties the in-memory collection, closes the
modal and sets the status; both failure paths alert
(`alert('Error clearing data. Please try again.')`) and leave the
in-memory collection untouched. -/
def clearAllWorkouts (outcome : ClearOutcome) (st : AppState) : AppState :=
  match outcome with
  | .complete =>
    { st with
        db := []
        workouts := []
        showResetModal := false
        backupStatus := "All data cleared" }
  | .txError => { st with alerted := true }
  | .exception => { st with alerted := true }

/-- C10: reset-all failure is surfaced and atomic for the in-memory
state: on a transaction error or a thrown exception the user-visible
alert is raised and the in-memory collection is unchanged; the
collection is emptied (together with the store) only on successful
completion of the clear transaction. -/
theorem clearAllWorkouts_failure_spec :
    ∀ st : AppState,
      ((clearAllWorkouts .txError st).workouts = st.workouts ∧
        (clearAllWorkouts .txError st).alerted = true) ∧
      ((clearAllWorkouts .exception st).workouts = st.workouts ∧
        (clearAllWorkouts .exception st).alerted = true) ∧
      (clearAllWorkouts .complete st).workouts = [] ∧
      (clearAllWorkouts .complete st).db = [] :=
  fun _ => ⟨⟨rfl, rfl⟩, ⟨rfl, rfl⟩, rfl, rfl⟩
